import Mathlib

/-!
Verification of the weight-download utility (docker/presets/download_script.go).

The Go program is shallowly embedded: pure helpers (`filepath.Base`,
`filepath.Join`/`Clean`, the URL resolvers, `WriteCounter.Write`) become Lean
functions over `String`/`List Char`/`Int`; the effectful entry point becomes a
function from the command line, the environment and two filesystem oracles to a
trace of events.  Go strings are Lean `String`s (a list of characters), Go
`int64` is `Int`, Go integer division (truncation toward zero) is `Int.tdiv`.
-/

namespace DownloadScript

/-! ### Basic string facts -/

theorem str_data_append (a b : String) : (a ++ b).data = a.data ++ b.data := by
  cases a; cases b; rfl

theorem str_append_left_cancel {p x y : String} (h : p ++ x = p ++ y) : x = y := by
  cases p with
  | mk pd =>
    cases x with
    | mk xd =>
      cases y with
      | mk yd =>
        have h2 : pd ++ xd = pd ++ yd := congrArg String.data h
        exact congrArg String.mk (List.append_cancel_left h2)

/-! ### List helpers about `takeWhile` / `dropWhile` with the separator `'/'` -/

theorem takeWhile_all_ne (l : List Char) (h : ∀ x ∈ l, x ≠ '/') :
    l.takeWhile (fun c => !(c == '/')) = l := by
  induction l with
  | nil => rfl
  | cons c t ih =>
    have hc : c ≠ '/' := h c (List.mem_cons_self c t)
    simp only [List.takeWhile_cons]
    simp only [beq_iff_eq] at *
    simp [hc, ih (fun x hx => h x (List.mem_cons_of_mem c hx))]

theorem takeWhile_append_slash (l1 l2 : List Char) (h : ∀ x ∈ l1, x ≠ '/') :
    (l1 ++ '/' :: l2).takeWhile (fun c => !(c == '/')) = l1 := by
  induction l1 with
  | nil => simp [List.takeWhile_cons]
  | cons c t ih =>
    have hc : c ≠ '/' := h c (List.mem_cons_self c t)
    simp only [List.cons_append, List.takeWhile_cons]
    simp [hc, ih (fun x hx => h x (List.mem_cons_of_mem c hx))]

theorem dropWhile_slash_cons_ne (c : Char) (t : List Char) (hc : c ≠ '/') :
    (c :: t).dropWhile (fun x => x == '/') = c :: t := by
  simp [List.dropWhile_cons, hc]

/-! ### Model of Go `path/filepath.Base` (unix): strip trailing separators, keep
the part after the last remaining separator; `""` gives `"."`, all-separator
paths give `"/"`. -/

def filepathBase (path : String) : String :=
  if path.data = [] then "."
  else
    let stripped := path.data.reverse.dropWhile (fun c => c == '/')
    if stripped = [] then "/"
    else ⟨(stripped.takeWhile (fun c => !(c == '/'))).reverse⟩

/-- Modelled from the spec's words: "the base name (final path component) of
the URL" — everything after the last `'/'` of the URL. -/
def specFinalComponent (url : String) : String :=
  ⟨(url.data.reverse.takeWhile (fun c => !(c == '/'))).reverse⟩

theorem filepathBase_append_slash (xs ys : List Char) (h1 : ys ≠ [])
    (h2 : ∀ x ∈ ys, x ≠ '/') : filepathBase ⟨xs ++ '/' :: ys⟩ = ⟨ys⟩ := by
  have hne : xs ++ '/' :: ys ≠ [] := by simp
  have hrev : (xs ++ '/' :: ys).reverse = ys.reverse ++ '/' :: xs.reverse := by
    rw [List.reverse_append, List.reverse_cons, List.append_assoc,
      List.singleton_append]
  obtain ⟨c, t, hct⟩ : ∃ c t, ys.reverse = c :: t := by
    cases hys : ys.reverse with
    | nil => exact absurd (List.reverse_eq_nil_iff.mp hys) h1
    | cons c t => exact ⟨c, t, rfl⟩
  have hc : c ≠ '/' := by
    apply h2
    rw [← List.mem_reverse, hct]
    exact List.mem_cons_self c t
  have hdrop : (xs ++ '/' :: ys).reverse.dropWhile (fun x => x == '/')
      = ys.reverse ++ '/' :: xs.reverse := by
    rw [hrev, hct, List.cons_append, dropWhile_slash_cons_ne c _ hc,
      ← List.cons_append, ← hct]
  have hrevne : ys.reverse ++ '/' :: xs.reverse ≠ [] := by simp
  have htake : (ys.reverse ++ '/' :: xs.reverse).takeWhile (fun c => !(c == '/'))
      = ys.reverse := by
    apply takeWhile_append_slash
    intro x hx
    exact h2 x (List.mem_reverse.mp hx)
  show filepathBase ⟨xs ++ '/' :: ys⟩ = ⟨ys⟩
  unfold filepathBase
  simp only [hne, if_false, ite_false]
  rw [hdrop, if_neg hrevne, htake, List.reverse_reverse]

theorem filepathBase_noslash (ys : List Char) (h1 : ys ≠ [])
    (h2 : ∀ x ∈ ys, x ≠ '/') : filepathBase ⟨ys⟩ = ⟨ys⟩ := by
  obtain ⟨c, t, hct⟩ : ∃ c t, ys.reverse = c :: t := by
    cases hys : ys.reverse with
    | nil => exact absurd (List.reverse_eq_nil_iff.mp hys) h1
    | cons c t => exact ⟨c, t, rfl⟩
  have hc : c ≠ '/' := by
    apply h2
    rw [← List.mem_reverse, hct]
    exact List.mem_cons_self c t
  have hdrop : ys.reverse.dropWhile (fun x => x == '/') = ys.reverse := by
    rw [hct]; exact dropWhile_slash_cons_ne c t hc
  have hrevne : ys.reverse ≠ [] := by rw [hct]; simp
  have htake : ys.reverse.takeWhile (fun c => !(c == '/')) = ys.reverse :=
    takeWhile_all_ne _ (fun x hx => h2 x (List.mem_reverse.mp hx))
  unfold filepathBase
  rw [if_neg h1]
  simp only [hdrop]
  rw [if_neg hrevne, htake, List.reverse_reverse]

theorem specFinalComponent_append_slash (xs ys : List Char)
    (h2 : ∀ x ∈ ys, x ≠ '/') : specFinalComponent ⟨xs ++ '/' :: ys⟩ = ⟨ys⟩ := by
  have hrev : (xs ++ '/' :: ys).reverse = ys.reverse ++ '/' :: xs.reverse := by
    rw [List.reverse_append, List.reverse_cons, List.append_assoc,
      List.singleton_append]
  unfold specFinalComponent
  simp only [hrev]
  rw [takeWhile_append_slash _ _ (fun x hx => h2 x (List.mem_reverse.mp hx)),
    List.reverse_reverse]

theorem specFinalComponent_noslash (ys : List Char)
    (h2 : ∀ x ∈ ys, x ≠ '/') : specFinalComponent ⟨ys⟩ = ⟨ys⟩ := by
  unfold specFinalComponent
  rw [takeWhile_all_ne _ (fun x hx => h2 x (List.mem_reverse.mp hx)),
    List.reverse_reverse]

/-! ### Model of Go `path/filepath.Clean` / `Join` (unix).

`Clean` is the lexical simplification: split at separators, drop empty and
`"."` components, resolve `".."` against the component stack (`".."` at the
root is dropped, leading `".."`s of a relative path are kept), then rejoin,
keeping the leading separator of a rooted path; an empty result is `"."`.
`Join(a, b)` (two elements, as in `downloadFile`) is `Clean(a + "/" + b)`,
skipping empty leading elements. -/

def splitSlash : List Char → List (List Char)
  | [] => [[]]
  | c :: t =>
    if c = '/' then [] :: splitSlash t
    else
      match splitSlash t with
      | [] => [[c]]
      | s :: r => (c :: s) :: r

def cleanComps (rooted : Bool) : List (List Char) → List (List Char) → List (List Char)
  | [], acc => acc.reverse
  | c :: rest, acc =>
    if c = [] ∨ c = ['.'] then cleanComps rooted rest acc
    else if c = ['.', '.'] then
      match acc with
      | [] =>
        if rooted then cleanComps rooted rest []
        else cleanComps rooted rest [['.', '.']]
      | a :: acc2 =>
        if a = ['.', '.'] then cleanComps rooted rest (['.', '.'] :: a :: acc2)
        else cleanComps rooted rest acc2
    else cleanComps rooted rest (c :: acc)

def joinComps : List (List Char) → List Char
  | [] => []
  | [c] => c
  | c :: c2 :: rest => c ++ '/' :: joinComps (c2 :: rest)

def buildClean (rooted : Bool) (comps : List (List Char)) : List Char :=
  if (if rooted then ['/'] else []) ++ joinComps comps = [] then ['.']
  else (if rooted then ['/'] else []) ++ joinComps comps

def cleanList (l : List Char) : List Char :=
  if l = [] then ['.']
  else
    buildClean (decide (l.head? = some '/'))
      (cleanComps (decide (l.head? = some '/')) (splitSlash l) [])

def cleanStr (s : String) : String := ⟨cleanList s.data⟩

def filepathJoin (a b : String) : String :=
  if a = "" then (if b = "" then "" else cleanStr b)
  else cleanStr ⟨a.data ++ '/' :: b.data⟩

/-- A plain file-name component: nonempty, separator-free, not `"."`/`".."`. -/
def isPlainName (n : String) : Prop :=
  n.data ≠ [] ∧ (∀ x ∈ n.data, x ≠ '/') ∧ n.data ≠ ['.'] ∧ n.data ≠ ['.', '.']

instance (n : String) : Decidable (isPlainName n) := by
  unfold isPlainName; infer_instance

theorem splitSlash_ne_nil (l : List Char) : splitSlash l ≠ [] := by
  cases l with
  | nil => simp [splitSlash]
  | cons c t =>
    simp only [splitSlash]
    split_ifs
    · simp
    · cases splitSlash t <;> simp

theorem splitSlash_noslash (l : List Char) (h : ∀ x ∈ l, x ≠ '/') :
    splitSlash l = [l] := by
  induction l with
  | nil => rfl
  | cons c t ih =>
    have hc : c ≠ '/' := h c (List.mem_cons_self c t)
    simp only [splitSlash]
    rw [if_neg hc, ih (fun x hx => h x (List.mem_cons_of_mem c hx))]

theorem splitSlash_cons_slash (t : List Char) :
    splitSlash ('/' :: t) = [] :: splitSlash t := by
  simp [splitSlash]

theorem splitSlash_cons_ne (c : Char) (t s : List Char) (r : List (List Char))
    (hc : c ≠ '/') (ht : splitSlash t = s :: r) :
    splitSlash (c :: t) = (c :: s) :: r := by
  simp only [splitSlash]
  rw [if_neg hc, ht]

theorem splitSlash_append_slash (xs ys : List Char) :
    splitSlash (xs ++ '/' :: ys) = splitSlash xs ++ splitSlash ys := by
  induction xs with
  | nil => rw [List.nil_append, splitSlash_cons_slash]; rfl
  | cons c xs2 ih =>
    rw [List.cons_append]
    by_cases hc : c = '/'
    · subst hc
      rw [splitSlash_cons_slash, splitSlash_cons_slash, ih, List.cons_append]
    · obtain ⟨s, r, hsr⟩ : ∃ s r, splitSlash xs2 = s :: r := by
        cases hx : splitSlash xs2 with
        | nil => exact absurd hx (splitSlash_ne_nil xs2)
        | cons s r => exact ⟨s, r, rfl⟩
      rw [splitSlash_cons_ne c _ s (r ++ splitSlash ys) hc
          (by rw [ih, hsr, List.cons_append]),
        splitSlash_cons_ne c xs2 s r hc hsr, List.cons_append]

theorem cleanComps_cons (r : Bool) (c : List Char) (rest acc : List (List Char)) :
    ∃ acc2, cleanComps r (c :: rest) acc = cleanComps r rest acc2 := by
  by_cases h1 : c = [] ∨ c = ['.']
  · exact ⟨acc, by simp only [cleanComps]; rw [if_pos h1]⟩
  · by_cases h2 : c = ['.', '.']
    · cases acc with
      | nil =>
        cases r with
        | false =>
          refine ⟨[['.', '.']], ?_⟩
          simp only [cleanComps]
          rw [if_neg h1, if_pos h2]
          simp
        | true =>
          refine ⟨[], ?_⟩
          simp only [cleanComps]
          rw [if_neg h1, if_pos h2]
          simp
      | cons a acc2 =>
        by_cases h3 : a = ['.', '.']
        · refine ⟨['.', '.'] :: a :: acc2, ?_⟩
          simp only [cleanComps]
          rw [if_neg h1, if_pos h2]
          simp [h3]
        · refine ⟨acc2, ?_⟩
          simp only [cleanComps]
          rw [if_neg h1, if_pos h2]
          simp [h3]
    · exact ⟨c :: acc, by simp only [cleanComps]; rw [if_neg h1, if_neg h2]⟩

theorem cleanComps_append (r : Bool) (l1 l2 acc : List (List Char)) :
    ∃ acc2, cleanComps r (l1 ++ l2) acc = cleanComps r l2 acc2 := by
  induction l1 generalizing acc with
  | nil => exact ⟨acc, rfl⟩
  | cons c rest ih =>
    obtain ⟨acc3, h3⟩ := cleanComps_cons r c (rest ++ l2) acc
    rw [List.cons_append, h3]
    exact ih acc3

theorem cleanComps_single_good (r : Bool) (acc : List (List Char)) (c : List Char)
    (h1 : c ≠ []) (h2 : c ≠ ['.']) (h3 : c ≠ ['.', '.']) :
    cleanComps r [c] acc = acc.reverse ++ [c] := by
  simp only [cleanComps]
  rw [if_neg (by simp [h1, h2]), if_neg h3]
  simp [cleanComps]

theorem joinComps_append_single (A : List (List Char)) (n : List Char) :
    joinComps (A ++ [n]) = if A = [] then n else joinComps A ++ '/' :: n := by
  induction A with
  | nil => simp [joinComps]
  | cons a A2 ih =>
    cases A2 with
    | nil => simp [joinComps]
    | cons a2 A3 =>
      have hstep : joinComps ((a :: a2 :: A3) ++ [n])
          = a ++ '/' :: joinComps ((a2 :: A3) ++ [n]) := rfl
      rw [hstep, ih]
      simp [joinComps, List.append_assoc]

theorem filepathBase_buildClean (r : Bool) (A : List (List Char)) (n : List Char)
    (h1 : n ≠ []) (h2 : ∀ x ∈ n, x ≠ '/') :
    filepathBase ⟨buildClean r (A ++ [n])⟩ = ⟨n⟩ := by
  unfold buildClean
  rw [joinComps_append_single]
  by_cases hA : A = []
  · rw [if_pos hA]
    cases r with
    | false =>
      rw [if_neg (by simpa using h1)]
      simpa using filepathBase_noslash n h1 h2
    | true =>
      rw [if_neg (by simp)]
      simpa using filepathBase_append_slash [] n h1 h2
  · rw [if_neg hA]
    have hform : (if r then ['/'] else []) ++ (joinComps A ++ '/' :: n)
        = ((if r then ['/'] else []) ++ joinComps A) ++ '/' :: n := by
      rw [List.append_assoc]
    rw [hform]
    rw [if_neg (by simp)]
    exact filepathBase_append_slash _ n h1 h2

theorem filepathBase_filepathJoin (dir n : String) (h : isPlainName n) :
    filepathBase (filepathJoin dir n) = n := by
  obtain ⟨h1, h2, h3, h4⟩ := h
  by_cases hd : dir = ""
  · subst hd
    have hn : n ≠ "" := by
      intro he
      exact h1 (congrArg String.data he)
    unfold filepathJoin
    rw [if_pos rfl, if_neg hn]
    show filepathBase ⟨cleanList n.data⟩ = n
    unfold cleanList
    rw [if_neg h1]
    obtain ⟨c, t, hct⟩ : ∃ c t, n.data = c :: t := by
      cases hh : n.data with
      | nil => exact absurd hh h1
      | cons c t => exact ⟨c, t, rfl⟩
    have hc : c ≠ '/' := h2 c (by rw [hct]; exact List.mem_cons_self c t)
    have hr : decide (n.data.head? = some '/') = false := by
      rw [hct]; simp [hc]
    rw [hr, splitSlash_noslash n.data h2, cleanComps_single_good false [] n.data h1 h3 h4]
    exact filepathBase_buildClean false [] n.data h1 h2
  · unfold filepathJoin
    rw [if_neg hd]
    show filepathBase ⟨cleanList (dir.data ++ '/' :: n.data)⟩ = n
    unfold cleanList
    rw [if_neg (by simp)]
    rw [splitSlash_append_slash dir.data n.data, splitSlash_noslash n.data h2]
    obtain ⟨acc2, hacc⟩ := cleanComps_append
      (decide ((dir.data ++ '/' :: n.data).head? = some '/'))
      (splitSlash dir.data) [n.data] []
    rw [hacc, cleanComps_single_good _ acc2 n.data h1 h3 h4]
    exact filepathBase_buildClean _ acc2.reverse n.data h1 h2

/-! ### String-level corollaries used for the resolver's URLs, whose shape is
`prefixPart ++ literalSuffix` with the literal suffix starting at a `'/'`. -/

theorem filepathBase_append_lit (p lit name : String)
    (hl : lit.data = '/' :: name.data) (h1 : name.data ≠ [])
    (h2 : ∀ x ∈ name.data, x ≠ '/') : filepathBase (p ++ lit) = name := by
  have hd : (p ++ lit).data = p.data ++ '/' :: name.data := by
    rw [str_data_append, hl]
  have he : p ++ lit = ⟨p.data ++ '/' :: name.data⟩ := by
    rw [← hd]
  rw [he, filepathBase_append_slash p.data name.data h1 h2]

theorem specFinalComponent_append_lit (p lit name : String)
    (hl : lit.data = '/' :: name.data)
    (h2 : ∀ x ∈ name.data, x ≠ '/') : specFinalComponent (p ++ lit) = name := by
  have hd : (p ++ lit).data = p.data ++ '/' :: name.data := by
    rw [str_data_append, hl]
  have he : p ++ lit = ⟨p.data ++ '/' :: name.data⟩ := by
    rw [← hd]
  rw [he, specFinalComponent_append_slash p.data name.data h2]

/-! ### The program (docker/presets/download_script.go) -/

/-- `const PublicLink = "public"` -/
def PublicLink : String := "public"

/-- `const PrivateLink = "private"` -/
def PrivateLink : String := "private"

/-- `func getFilenameFromURL(url string) string { return filepath.Base(url) }` -/
def getFilenameFromURL (url : String) : String := filepathBase url

/-- The request built by `downloadFile`: `http.NewRequest("GET", url, nil)`,
then `req.Header.Add("Authorization", "Bearer "+token)` when `token != ""`. -/
structure HTTPRequest where
  method : String
  url : String
  headers : List (String × String)
deriving DecidableEq

/-- The externally visible effects of one `downloadFile` call: the file it
creates (`os.Create(filepath.Join(folderPath, getFilenameFromURL(url)))`), the
request it executes, and every local path it writes the response body to
(`io.Copy(out, ...)` writes only to the created file). -/
structure DownloadAction where
  createPath : String
  request : HTTPRequest
  writtenPaths : List String
deriving DecidableEq

def downloadFile (folderPath url token : String) : DownloadAction :=
  { createPath := filepathJoin folderPath (getFilenameFromURL url)
  , request :=
      { method := "GET"
      , url := url
      , headers :=
          if token ≠ "" then [("Authorization", "Bearer " ++ token)] else [] }
  , writtenPaths := [filepathJoin folderPath (getFilenameFromURL url)] }

/-- The model versions accepted by the `linkType == PublicLink` branch of
`getURLsForModel` (its `switch` cases). -/
def publicModels : List String :=
  [ "tiiuae/falcon-7b", "tiiuae/falcon-7b-instruct"
  , "tiiuae/falcon-40b", "tiiuae/falcon-40b-instruct" ]

/-- The model versions accepted by `getPrivateURLsForModel` (its `switch`
cases). -/
def privateModels : List String :=
  [ "llama-2-7b", "llama-2-7b-chat", "llama-2-13b", "llama-2-13b-chat"
  , "llama-2-70b", "llama-2-70b-chat" ]

/-- `type WriteCounter struct` — `read` is the shared cumulative byte counter
(`*wc.read` in Go), `lastReported` the value at the last progress line. -/
structure WriteCounter where
  filename : String
  total : Int
  read : Int
  lastReported : Int
deriving DecidableEq

/-- Result of one `WriteCounter.Write` call: updated counter, the returned
`(int, error)` pair, and whether a progress line was printed. -/
structure WriteResult where
  counter : WriteCounter
  n : Nat
  err : Option String
  printed : Bool
deriving DecidableEq

/-- `func (wc *WriteCounter) Write(p []byte) (int, error)`: adds `len(p)` to
the counter, prints when the unreported progress reaches `wc.total / 100`
(Go `int64` division truncates toward zero, hence `Int.tdiv`), and always
returns `(len(p), nil)`. -/
def WriteCounter.write (wc : WriteCounter) (p : List Nat) : WriteResult :=
  if wc.read + (p.length : Int) - wc.lastReported ≥ Int.tdiv wc.total 100 then
    ⟨{ wc with read := wc.read + (p.length : Int)
             , lastReported := wc.read + (p.length : Int) },
      p.length, none, true⟩
  else
    ⟨{ wc with read := wc.read + (p.length : Int) }, p.length, none, false⟩

/-- `fmt.Sprintf("%05d", i)` for a natural number. -/
def pad5 (i : Nat) : String :=
  ⟨List.replicate (5 - (toString i).length) '0'⟩ ++ toString i

/-- `func falconCommonURLs(modelVersion string) []string` -/
def falconCommonURLs (modelVersion : String) : List String :=
  [ "https://huggingface.co/" ++ modelVersion ++ "/raw/main/config.json"
  , "https://huggingface.co/" ++ modelVersion ++ "/raw/main/pytorch_model.bin.index.json"
  , "https://huggingface.co/" ++ modelVersion ++ "/raw/main/tokenizer.json"
  , "https://huggingface.co/" ++ modelVersion ++ "/raw/main/tokenizer_config.json"
  , "https://huggingface.co/" ++ modelVersion ++ "/raw/main/special_tokens_map.json"
  , "https://huggingface.co/" ++ modelVersion ++ "/raw/main/configuration_falcon.py"
  , "https://huggingface.co/" ++ modelVersion ++ "/raw/main/generation_config.json"
  , "https://huggingface.co/" ++ modelVersion ++ "/raw/main/modeling_falcon.py" ]

/-- `func falconModelURLs(modelVersion string, count int) (urls []string)`:
one shard URL for each `i = 1 .. count`. -/
def falconModelURLs (modelVersion : String) (count : Nat) : List String :=
  (List.range' 1 count).map fun i =>
    "https://huggingface.co/" ++ modelVersion ++ "/resolve/main/pytorch_model-"
      ++ pad5 i ++ "-of-" ++ pad5 count ++ ".bin"

/-- `func getPrivateURLsForModel(baseURL, modelVersion string) []string`;
`log.Fatalf` is modelled as `Except.error` carrying the logged message. -/
def getPrivateURLsForModel (baseURL modelVersion : String) :
    Except String (List String) :=
  if modelVersion = "llama-2-7b" ∨ modelVersion = "llama-2-7b-chat" then
    .ok [ baseURL ++ modelVersion ++ "/consolidated.00.pth"
        , baseURL ++ modelVersion ++ "/params.json" ]
  else if modelVersion = "llama-2-13b" ∨ modelVersion = "llama-2-13b-chat" then
    .ok [ baseURL ++ modelVersion ++ "/consolidated.00.pth"
        , baseURL ++ modelVersion ++ "/consolidated.01.pth"
        , baseURL ++ modelVersion ++ "/params.json" ]
  else if modelVersion = "llama-2-70b" ∨ modelVersion = "llama-2-70b-chat" then
    .ok [ baseURL ++ modelVersion ++ "/consolidated.00.pth"
        , baseURL ++ modelVersion ++ "/consolidated.01.pth"
        , baseURL ++ modelVersion ++ "/consolidated.03.pth"
        , baseURL ++ modelVersion ++ "/consolidated.04.pth"
        , baseURL ++ modelVersion ++ "/consolidated.05.pth"
        , baseURL ++ modelVersion ++ "/consolidated.06.pth"
        , baseURL ++ modelVersion ++ "/consolidated.07.pth"
        , baseURL ++ modelVersion ++ "/params.json" ]
  else .error ("Invalid model version for private link: " ++ modelVersion)

/-- `func getURLsForModel(linkType, baseURL, modelVersion string) []string` -/
def getURLsForModel (linkType baseURL modelVersion : String) :
    Except String (List String) :=
  if linkType = PublicLink then
    if modelVersion = "tiiuae/falcon-7b" ∨ modelVersion = "tiiuae/falcon-7b-instruct" then
      .ok (falconModelURLs modelVersion 2 ++ falconCommonURLs modelVersion)
    else if modelVersion = "tiiuae/falcon-40b" ∨ modelVersion = "tiiuae/falcon-40b-instruct" then
      .ok (falconModelURLs modelVersion 9 ++ falconCommonURLs modelVersion)
    else .error ("Invalid model version for public link: " ++ modelVersion)
  else getPrivateURLsForModel baseURL modelVersion

/-! ### The entry point, as a trace of observable events

`main` is deterministic given the command line (`args` is the whole `os.Args`,
program name included), the environment (`getenv`, Go's `os.Getenv`: `""` for
an unset variable), and two filesystem oracles: whether the output directory
already exists (`os.Stat`/`os.IsNotExist` in `ensureDirExists`) and whether
`os.MkdirAll` succeeds.  `log.Fatal*` terminates the process, so a run ends in
`fatal` with the logged message or in `done` after `wg.Wait()`. -/

inductive Event where
  | ensureDir (dir : String) (existed : Bool)
  | resolve (linkType baseURL modelVersion : String)
  | download (folder url token : String)
deriving DecidableEq

inductive RunOutcome where
  | fatal (msg : String)
  | done
deriving DecidableEq

structure Run where
  events : List Event
  result : RunOutcome
deriving DecidableEq

def Event.isEnsure : Event → Bool
  | .ensureDir .. => true
  | _ => false

def Event.isResolve : Event → Bool
  | .resolve .. => true
  | _ => false

def Event.isDownload : Event → Bool
  | .download .. => true
  | _ => false

/-- The bearer token a run downloads with: `os.Getenv("AUTH_TOKEN_ENV_VAR")`
for private links, `""` otherwise. -/
def mainToken (args : List String) (getenv : String → String) : String :=
  if args.getD 1 "" = PrivateLink then getenv "AUTH_TOKEN_ENV_VAR" else ""

/-- The base URL a run resolves with:
`"http://" + externalIP + ":" + externalPort + "/download/"` for private
links, `""` otherwise. -/
def mainBaseURL (args : List String) : String :=
  if args.getD 1 "" = PrivateLink then
    "http://" ++ args.getD 4 "" ++ ":" ++ args.getD 5 "" ++ "/download/"
  else ""

/-- `func main()`.  Checks (in source order): `len(os.Args) < 4`;
`ensureDirExists(os.Args[3])` (stat, then `MkdirAll` when absent, fatal when
that fails); for private links `len(os.Args) != 6` and the `AUTH_TOKEN_ENV_VAR`
environment variable; then the resolver, one download goroutine per URL and a
single `wg.Wait()`. -/
def mainRun (args : List String) (getenv : String → String)
    (dirExists mkdirOk : Bool) : Run :=
  if args.length < 4 then
    ⟨[], .fatal "Usage: <link_type> <model_version> <output_directory>"⟩
  else if dirExists = false ∧ mkdirOk = false then
    ⟨[.ensureDir (args.getD 3 "") dirExists], .fatal "Failed to create directory"⟩
  else if args.getD 1 "" = PrivateLink ∧ args.length ≠ 6 then
    ⟨[.ensureDir (args.getD 3 "") dirExists],
      .fatal "Usage (private link): <link_type> <model_version> <output_directory> <external_IP> <external_port>"⟩
  else if args.getD 1 "" = PrivateLink ∧ getenv "AUTH_TOKEN_ENV_VAR" = "" then
    ⟨[.ensureDir (args.getD 3 "") dirExists], .fatal "AUTH_TOKEN_ENV_VAR not set!"⟩
  else
    match getURLsForModel (args.getD 1 "") (mainBaseURL args) (args.getD 2 "") with
    | .error m =>
      ⟨[.ensureDir (args.getD 3 "") dirExists,
        .resolve (args.getD 1 "") (mainBaseURL args) (args.getD 2 "")], .fatal m⟩
    | .ok urls =>
      ⟨.ensureDir (args.getD 3 "") dirExists
        :: .resolve (args.getD 1 "") (mainBaseURL args) (args.getD 2 "")
        :: urls.map (fun u => .download (args.getD 3 "") u (mainToken args getenv)),
        .done⟩

/-! ### Base names of the private (llama) URLs, for an arbitrary base URL -/

theorem fpB_c00 (p : String) :
    filepathBase (p ++ "/consolidated.00.pth") = "consolidated.00.pth" :=
  filepathBase_append_lit p _ _ rfl (by decide) (by decide)

theorem fpB_c01 (p : String) :
    filepathBase (p ++ "/consolidated.01.pth") = "consolidated.01.pth" :=
  filepathBase_append_lit p _ _ rfl (by decide) (by decide)

theorem fpB_c03 (p : String) :
    filepathBase (p ++ "/consolidated.03.pth") = "consolidated.03.pth" :=
  filepathBase_append_lit p _ _ rfl (by decide) (by decide)

theorem fpB_c04 (p : String) :
    filepathBase (p ++ "/consolidated.04.pth") = "consolidated.04.pth" :=
  filepathBase_append_lit p _ _ rfl (by decide) (by decide)

theorem fpB_c05 (p : String) :
    filepathBase (p ++ "/consolidated.05.pth") = "consolidated.05.pth" :=
  filepathBase_append_lit p _ _ rfl (by decide) (by decide)

theorem fpB_c06 (p : String) :
    filepathBase (p ++ "/consolidated.06.pth") = "consolidated.06.pth" :=
  filepathBase_append_lit p _ _ rfl (by decide) (by decide)

theorem fpB_c07 (p : String) :
    filepathBase (p ++ "/consolidated.07.pth") = "consolidated.07.pth" :=
  filepathBase_append_lit p _ _ rfl (by decide) (by decide)

theorem fpB_params (p : String) :
    filepathBase (p ++ "/params.json") = "params.json" :=
  filepathBase_append_lit p _ _ rfl (by decide) (by decide)

theorem sFC_c00 (p : String) :
    specFinalComponent (p ++ "/consolidated.00.pth") = "consolidated.00.pth" :=
  specFinalComponent_append_lit p _ _ rfl (by decide)

theorem sFC_c01 (p : String) :
    specFinalComponent (p ++ "/consolidated.01.pth") = "consolidated.01.pth" :=
  specFinalComponent_append_lit p _ _ rfl (by decide)

theorem sFC_c03 (p : String) :
    specFinalComponent (p ++ "/consolidated.03.pth") = "consolidated.03.pth" :=
  specFinalComponent_append_lit p _ _ rfl (by decide)

theorem sFC_c04 (p : String) :
    specFinalComponent (p ++ "/consolidated.04.pth") = "consolidated.04.pth" :=
  specFinalComponent_append_lit p _ _ rfl (by decide)

theorem sFC_c05 (p : String) :
    specFinalComponent (p ++ "/consolidated.05.pth") = "consolidated.05.pth" :=
  specFinalComponent_append_lit p _ _ rfl (by decide)

theorem sFC_c06 (p : String) :
    specFinalComponent (p ++ "/consolidated.06.pth") = "consolidated.06.pth" :=
  specFinalComponent_append_lit p _ _ rfl (by decide)

theorem sFC_c07 (p : String) :
    specFinalComponent (p ++ "/consolidated.07.pth") = "consolidated.07.pth" :=
  specFinalComponent_append_lit p _ _ rfl (by decide)

theorem sFC_params (p : String) :
    specFinalComponent (p ++ "/params.json") = "params.json" :=
  specFinalComponent_append_lit p _ _ rfl (by decide)

/-! ### The claims -/

/-- C1: `getURLsForModel` is a (deterministic) function of its three
arguments — it is a Lean function — and for link type `"public"` it returns,
for any base URL, exactly these lists in this order: for `tiiuae/falcon-7b`
and `tiiuae/falcon-7b-instruct` the 2 shard URLs
`.../resolve/main/pytorch_model-0000i-of-00002.bin` (`i = 1, 2` ascending)
followed by the 8 common raw-file URLs (`config.json` first,
`modeling_falcon.py` last); for `tiiuae/falcon-40b` and
`tiiuae/falcon-40b-instruct` the 9 shard URLs (`i = 1..9` ascending) followed
by the same 8 common URLs. -/
theorem claim1_public_resolution (baseURL : String) :
    getURLsForModel "public" baseURL "tiiuae/falcon-7b" = .ok
      [ "https://huggingface.co/tiiuae/falcon-7b/resolve/main/pytorch_model-00001-of-00002.bin"
      , "https://huggingface.co/tiiuae/falcon-7b/resolve/main/pytorch_model-00002-of-00002.bin"
      , "https://huggingface.co/tiiuae/falcon-7b/raw/main/config.json"
      , "https://huggingface.co/tiiuae/falcon-7b/raw/main/pytorch_model.bin.index.json"
      , "https://huggingface.co/tiiuae/falcon-7b/raw/main/tokenizer.json"
      , "https://huggingface.co/tiiuae/falcon-7b/raw/main/tokenizer_config.json"
      , "https://huggingface.co/tiiuae/falcon-7b/raw/main/special_tokens_map.json"
      , "https://huggingface.co/tiiuae/falcon-7b/raw/main/configuration_falcon.py"
      , "https://huggingface.co/tiiuae/falcon-7b/raw/main/generation_config.json"
      , "https://huggingface.co/tiiuae/falcon-7b/raw/main/modeling_falcon.py" ]
    ∧ getURLsForModel "public" baseURL "tiiuae/falcon-7b-instruct" = .ok
      [ "https://huggingface.co/tiiuae/falcon-7b-instruct/resolve/main/pytorch_model-00001-of-00002.bin"
      , "https://huggingface.co/tiiuae/falcon-7b-instruct/resolve/main/pytorch_model-00002-of-00002.bin"
      , "https://huggingface.co/tiiuae/falcon-7b-instruct/raw/main/config.json"
      , "https://huggingface.co/tiiuae/falcon-7b-instruct/raw/main/pytorch_model.bin.index.json"
      , "https://huggingface.co/tiiuae/falcon-7b-instruct/raw/main/tokenizer.json"
      , "https://huggingface.co/tiiuae/falcon-7b-instruct/raw/main/tokenizer_config.json"
      , "https://huggingface.co/tiiuae/falcon-7b-instruct/raw/main/special_tokens_map.json"
      , "https://huggingface.co/tiiuae/falcon-7b-instruct/raw/main/configuration_falcon.py"
      , "https://huggingface.co/tiiuae/falcon-7b-instruct/raw/main/generation_config.json"
      , "https://huggingface.co/tiiuae/falcon-7b-instruct/raw/main/modeling_falcon.py" ]
    ∧ getURLsForModel "public" baseURL "tiiuae/falcon-40b" = .ok
      [ "https://huggingface.co/tiiuae/falcon-40b/resolve/main/pytorch_model-00001-of-00009.bin"
      , "https://huggingface.co/tiiuae/falcon-40b/resolve/main/pytorch_model-00002-of-00009.bin"
      , "https://huggingface.co/tiiuae/falcon-40b/resolve/main/pytorch_model-00003-of-00009.bin"
      , "https://huggingface.co/tiiuae/falcon-40b/resolve/main/pytorch_model-00004-of-00009.bin"
      , "https://huggingface.co/tiiuae/falcon-40b/resolve/main/pytorch_model-00005-of-00009.bin"
      , "https://huggingface.co/tiiuae/falcon-40b/resolve/main/pytorch_model-00006-of-00009.bin"
      , "https://huggingface.co/tiiuae/falcon-40b/resolve/main/pytorch_model-00007-of-00009.bin"
      , "https://huggingface.co/tiiuae/falcon-40b/resolve/main/pytorch_model-00008-of-00009.bin"
      , "https://huggingface.co/tiiuae/falcon-40b/resolve/main/pytorch_model-00009-of-00009.bin"
      , "https://huggingface.co/tiiuae/falcon-40b/raw/main/config.json"
      , "https://huggingface.co/tiiuae/falcon-40b/raw/main/pytorch_model.bin.index.json"
      , "https://huggingface.co/tiiuae/falcon-40b/raw/main/tokenizer.json"
      , "https://huggingface.co/tiiuae/falcon-40b/raw/main/tokenizer_config.json"
      , "https://huggingface.co/tiiuae/falcon-40b/raw/main/special_tokens_map.json"
      , "https://huggingface.co/tiiuae/falcon-40b/raw/main/configuration_falcon.py"
      , "https://huggingface.co/tiiuae/falcon-40b/raw/main/generation_config.json"
      , "https://huggingface.co/tiiuae/falcon-40b/raw/main/modeling_falcon.py" ]
    ∧ getURLsForModel "public" baseURL "tiiuae/falcon-40b-instruct" = .ok
      [ "https://huggingface.co/tiiuae/falcon-40b-instruct/resolve/main/pytorch_model-00001-of-00009.bin"
      , "https://huggingface.co/tiiuae/falcon-40b-instruct/resolve/main/pytorch_model-00002-of-00009.bin"
      , "https://huggingface.co/tiiuae/falcon-40b-instruct/resolve/main/pytorch_model-00003-of-00009.bin"
      , "https://huggingface.co/tiiuae/falcon-40b-instruct/resolve/main/pytorch_model-00004-of-00009.bin"
      , "https://huggingface.co/tiiuae/falcon-40b-instruct/resolve/main/pytorch_model-00005-of-00009.bin"
      , "https://huggingface.co/tiiuae/falcon-40b-instruct/resolve/main/pytorch_model-00006-of-00009.bin"
      , "https://huggingface.co/tiiuae/falcon-40b-instruct/resolve/main/pytorch_model-00007-of-00009.bin"
      , "https://huggingface.co/tiiuae/falcon-40b-instruct/resolve/main/pytorch_model-00008-of-00009.bin"
      , "https://huggingface.co/tiiuae/falcon-40b-instruct/resolve/main/pytorch_model-00009-of-00009.bin"
      , "https://huggingface.co/tiiuae/falcon-40b-instruct/raw/main/config.json"
      , "https://huggingface.co/tiiuae/falcon-40b-instruct/raw/main/pytorch_model.bin.index.json"
      , "https://huggingface.co/tiiuae/falcon-40b-instruct/raw/main/tokenizer.json"
      , "https://huggingface.co/tiiuae/falcon-40b-instruct/raw/main/tokenizer_config.json"
      , "https://huggingface.co/tiiuae/falcon-40b-instruct/raw/main/special_tokens_map.json"
      , "https://huggingface.co/tiiuae/falcon-40b-instruct/raw/main/configuration_falcon.py"
      , "https://huggingface.co/tiiuae/falcon-40b-instruct/raw/main/generation_config.json"
      , "https://huggingface.co/tiiuae/falcon-40b-instruct/raw/main/modeling_falcon.py" ]
    := ⟨rfl, rfl, rfl, rfl⟩

/-- C2: for `llama-2-70b` and `llama-2-70b-chat`, `getPrivateURLsForModel`
returns exactly 8 URLs for any base URL: the shards `00, 01, 03, 04, 05, 06,
07` in that order followed by `params.json`; shard `02` is absent, so the
shard indices are not consecutive (the base names of the returned URLs are
listed, and `consolidated.02.pth` is not among them). -/
theorem claim2_llama70b_resolution (baseURL : String) :
    getPrivateURLsForModel baseURL "llama-2-70b" = .ok
      [ baseURL ++ "llama-2-70b" ++ "/consolidated.00.pth"
      , baseURL ++ "llama-2-70b" ++ "/consolidated.01.pth"
      , baseURL ++ "llama-2-70b" ++ "/consolidated.03.pth"
      , baseURL ++ "llama-2-70b" ++ "/consolidated.04.pth"
      , baseURL ++ "llama-2-70b" ++ "/consolidated.05.pth"
      , baseURL ++ "llama-2-70b" ++ "/consolidated.06.pth"
      , baseURL ++ "llama-2-70b" ++ "/consolidated.07.pth"
      , baseURL ++ "llama-2-70b" ++ "/params.json" ]
    ∧ getPrivateURLsForModel baseURL "llama-2-70b-chat" = .ok
      [ baseURL ++ "llama-2-70b-chat" ++ "/consolidated.00.pth"
      , baseURL ++ "llama-2-70b-chat" ++ "/consolidated.01.pth"
      , baseURL ++ "llama-2-70b-chat" ++ "/consolidated.03.pth"
      , baseURL ++ "llama-2-70b-chat" ++ "/consolidated.04.pth"
      , baseURL ++ "llama-2-70b-chat" ++ "/consolidated.05.pth"
      , baseURL ++ "llama-2-70b-chat" ++ "/consolidated.06.pth"
      , baseURL ++ "llama-2-70b-chat" ++ "/consolidated.07.pth"
      , baseURL ++ "llama-2-70b-chat" ++ "/params.json" ]
    ∧ ∀ urls, getPrivateURLsForModel baseURL "llama-2-70b" = .ok urls →
        urls.map getFilenameFromURL =
          [ "consolidated.00.pth", "consolidated.01.pth", "consolidated.03.pth"
          , "consolidated.04.pth", "consolidated.05.pth", "consolidated.06.pth"
          , "consolidated.07.pth", "params.json" ]
        ∧ "consolidated.02.pth" ∉ urls.map getFilenameFromURL := by
  refine ⟨rfl, rfl, ?_⟩
  intro urls hurls
  have h : urls =
      [ baseURL ++ "llama-2-70b" ++ "/consolidated.00.pth"
      , baseURL ++ "llama-2-70b" ++ "/consolidated.01.pth"
      , baseURL ++ "llama-2-70b" ++ "/consolidated.03.pth"
      , baseURL ++ "llama-2-70b" ++ "/consolidated.04.pth"
      , baseURL ++ "llama-2-70b" ++ "/consolidated.05.pth"
      , baseURL ++ "llama-2-70b" ++ "/consolidated.06.pth"
      , baseURL ++ "llama-2-70b" ++ "/consolidated.07.pth"
      , baseURL ++ "llama-2-70b" ++ "/params.json" ] := by
    have := hurls.symm.trans (rfl : getPrivateURLsForModel baseURL "llama-2-70b" = _)
    exact (Except.ok.injEq _ _).mp this.symm |>.symm ▸ rfl
  subst h
  have hmap : ([ baseURL ++ "llama-2-70b" ++ "/consolidated.00.pth"
      , baseURL ++ "llama-2-70b" ++ "/consolidated.01.pth"
      , baseURL ++ "llama-2-70b" ++ "/consolidated.03.pth"
      , baseURL ++ "llama-2-70b" ++ "/consolidated.04.pth"
      , baseURL ++ "llama-2-70b" ++ "/consolidated.05.pth"
      , baseURL ++ "llama-2-70b" ++ "/consolidated.06.pth"
      , baseURL ++ "llama-2-70b" ++ "/consolidated.07.pth"
      , baseURL ++ "llama-2-70b" ++ "/params.json" ]).map getFilenameFromURL =
      [ "consolidated.00.pth", "consolidated.01.pth", "consolidated.03.pth"
      , "consolidated.04.pth", "consolidated.05.pth", "consolidated.06.pth"
      , "consolidated.07.pth", "params.json" ] := by
    simp only [List.map_cons, List.map_nil, getFilenameFromURL,
      fpB_c00, fpB_c01, fpB_c03, fpB_c04, fpB_c05, fpB_c06, fpB_c07, fpB_params]
  rw [hmap]
  exact ⟨rfl, by decide⟩

/-- C2 witness: at a concrete base URL, the resolved `llama-2-70b` list has
exactly these base names, and `consolidated.02.pth` is not among them. -/
theorem claim2_witness :
    ([ "http://h:80/download/" ++ "llama-2-70b" ++ "/consolidated.00.pth"
     , "http://h:80/download/" ++ "llama-2-70b" ++ "/consolidated.01.pth"
     , "http://h:80/download/" ++ "llama-2-70b" ++ "/consolidated.03.pth"
     , "http://h:80/download/" ++ "llama-2-70b" ++ "/consolidated.04.pth"
     , "http://h:80/download/" ++ "llama-2-70b" ++ "/consolidated.05.pth"
     , "http://h:80/download/" ++ "llama-2-70b" ++ "/consolidated.06.pth"
     , "http://h:80/download/" ++ "llama-2-70b" ++ "/consolidated.07.pth"
     , "http://h:80/download/" ++ "llama-2-70b" ++ "/params.json" ]).map
        getFilenameFromURL =
      [ "consolidated.00.pth", "consolidated.01.pth", "consolidated.03.pth"
      , "consolidated.04.pth", "consolidated.05.pth", "consolidated.06.pth"
      , "consolidated.07.pth", "params.json" ]
    ∧ "consolidated.02.pth" ∉
      ([ "http://h:80/download/" ++ "llama-2-70b" ++ "/consolidated.00.pth"
       , "http://h:80/download/" ++ "llama-2-70b" ++ "/consolidated.01.pth"
       , "http://h:80/download/" ++ "llama-2-70b" ++ "/consolidated.03.pth"
       , "http://h:80/download/" ++ "llama-2-70b" ++ "/consolidated.04.pth"
       , "http://h:80/download/" ++ "llama-2-70b" ++ "/consolidated.05.pth"
       , "http://h:80/download/" ++ "llama-2-70b" ++ "/consolidated.06.pth"
       , "http://h:80/download/" ++ "llama-2-70b" ++ "/consolidated.07.pth"
       , "http://h:80/download/" ++ "llama-2-70b" ++ "/params.json" ]).map
        getFilenameFromURL :=
  (claim2_llama70b_resolution "http://h:80/download/").2.2 _ rfl

/-! ### Shape of the entry point's behaviour -/

theorem getURLsForModel_invalid (linkType baseURL modelVersion : String)
    (hmv : if linkType = PublicLink then modelVersion ∉ publicModels
           else modelVersion ∉ privateModels) :
    getURLsForModel linkType baseURL modelVersion =
      .error ((if linkType = PublicLink then "Invalid model version for public link: "
               else "Invalid model version for private link: ") ++ modelVersion) := by
  by_cases hp : linkType = PublicLink
  · rw [if_pos hp] at hmv ⊢
    unfold getURLsForModel
    rw [if_pos hp,
      if_neg (fun hor => hmv (by rcases hor with rfl | rfl <;> simp [publicModels])),
      if_neg (fun hor => hmv (by rcases hor with rfl | rfl <;> simp [publicModels]))]
  · rw [if_neg hp] at hmv ⊢
    unfold getURLsForModel getPrivateURLsForModel
    rw [if_neg hp,
      if_neg (fun hor => hmv (by rcases hor with rfl | rfl <;> simp [privateModels])),
      if_neg (fun hor => hmv (by rcases hor with rfl | rfl <;> simp [privateModels])),
      if_neg (fun hor => hmv (by rcases hor with rfl | rfl <;> simp [privateModels]))]

/-- Every run of `main` has one of four shapes: usage error before the
directory step; fatal after the directory step but before the resolver
(directory creation failure, private-link argument or token error); resolver
error after the directory and resolve steps; or a completed run with one
download per resolved URL, in order. -/
theorem mainRun_cases (args : List String) (getenv : String → String)
    (dE mkOk : Bool) :
    ((mainRun args getenv dE mkOk).events = []
        ∧ ∃ m, (mainRun args getenv dE mkOk).result = .fatal m)
    ∨ ((mainRun args getenv dE mkOk).events = [.ensureDir (args.getD 3 "") dE]
        ∧ ∃ m, (mainRun args getenv dE mkOk).result = .fatal m)
    ∨ (∃ m, getURLsForModel (args.getD 1 "") (mainBaseURL args) (args.getD 2 "") = .error m
        ∧ (mainRun args getenv dE mkOk).events =
            [.ensureDir (args.getD 3 "") dE,
              .resolve (args.getD 1 "") (mainBaseURL args) (args.getD 2 "")]
        ∧ (mainRun args getenv dE mkOk).result = .fatal m)
    ∨ (∃ urls, getURLsForModel (args.getD 1 "") (mainBaseURL args) (args.getD 2 "") = .ok urls
        ∧ (mainRun args getenv dE mkOk).events =
            .ensureDir (args.getD 3 "") dE
              :: .resolve (args.getD 1 "") (mainBaseURL args) (args.getD 2 "")
              :: urls.map (fun u => .download (args.getD 3 "") u (mainToken args getenv))
        ∧ (mainRun args getenv dE mkOk).result = .done) := by
  unfold mainRun
  split_ifs with h1 h2 h3 h4
  · exact Or.inl ⟨rfl, _, rfl⟩
  · exact Or.inr (Or.inl ⟨rfl, _, rfl⟩)
  · exact Or.inr (Or.inl ⟨rfl, _, rfl⟩)
  · exact Or.inr (Or.inl ⟨rfl, _, rfl⟩)
  · cases hres : getURLsForModel (args.getD 1 "") (mainBaseURL args) (args.getD 2 "") with
    | error m => exact Or.inr (Or.inr (Or.inl ⟨m, rfl, rfl, rfl⟩))
    | ok urls => exact Or.inr (Or.inr (Or.inr ⟨urls, rfl, rfl, rfl⟩))

theorem countP_ensure_map (urls : List String) (d t : String) :
    (urls.map (fun u => Event.download d u t)).countP Event.isEnsure = 0 := by
  induction urls with
  | nil => rfl
  | cons u rest ih => simp [List.countP_cons, Event.isEnsure, ih]

theorem countP_download_map (urls : List String) (d t : String) :
    (urls.map (fun u => Event.download d u t)).countP Event.isDownload = urls.length := by
  induction urls with
  | nil => rfl
  | cons u rest ih => simp [List.countP_cons, Event.isDownload, ih]

theorem filter_download_map (urls : List String) (d t : String) :
    (urls.map (fun u => Event.download d u t)).filter Event.isDownload
      = urls.map (fun u => Event.download d u t) := by
  induction urls with
  | nil => rfl
  | cons u rest ih => simp [List.filter_cons, Event.isDownload, ih]

/-- A run that reaches the resolver or a download got past the directory
step: the output directory existed or was created successfully. -/
theorem mainRun_dir_ok_of_resolve (args : List String) (getenv : String → String)
    (dE mkOk : Bool) (i : Nat) (e : Event)
    (hi : (mainRun args getenv dE mkOk).events[i]? = some e)
    (he : e.isResolve = true ∨ e.isDownload = true) :
    dE = true ∨ mkOk = true := by
  cases dE with
  | true => exact Or.inl rfl
  | false =>
    cases mkOk with
    | true => exact Or.inr rfl
    | false =>
      exfalso
      unfold mainRun at hi
      split_ifs at hi with h1 h2 h3 h4
      · simp at hi
      · cases i with
        | zero =>
          have hz : Event.ensureDir (args.getD 3 "") false = e := by
            simpa using hi
          rcases he with h | h <;> rw [← hz] at h <;>
            simp [Event.isResolve, Event.isDownload] at h
        | succ j => simp at hi
      · exact h2 ⟨rfl, rfl⟩
      · exact h2 ⟨rfl, rfl⟩
      · exact h2 ⟨rfl, rfl⟩

/-- C3: whenever the entry point records a resolver invocation or a download
launch at position `i` of its trace, the directory-existence step on the third
positional argument occupies an earlier position (position 0), the directory
then exists (it was found or successfully created), and the run performs
exactly one directory-existence step — directory validation goes no further
than that. -/
theorem claim3_dir_check_before_resolver (args : List String)
    (getenv : String → String) (dE mkOk : Bool) (i : Nat) (e : Event)
    (hi : (mainRun args getenv dE mkOk).events[i]? = some e)
    (he : e.isResolve = true ∨ e.isDownload = true) :
    0 < i
    ∧ (mainRun args getenv dE mkOk).events[0]? =
        some (.ensureDir (args.getD 3 "") dE)
    ∧ (mainRun args getenv dE mkOk).events.countP Event.isEnsure = 1
    ∧ (dE = true ∨ mkOk = true) := by
  have hdir := mainRun_dir_ok_of_resolve args getenv dE mkOk i e hi he
  have hnotens : ∀ d ex, e = Event.ensureDir d ex → False := by
    rintro d ex rfl
    rcases he with h | h <;> simp [Event.isResolve, Event.isDownload] at h
  rcases mainRun_cases args getenv dE mkOk with
    ⟨hev, -⟩ | ⟨hev, -⟩ | ⟨m, -, hev, -⟩ | ⟨urls, -, hev, -⟩
  · rw [hev] at hi
    simp at hi
  · rw [hev] at hi
    cases i with
    | zero =>
      have hz : Event.ensureDir (args.getD 3 "") dE = e := by simpa using hi
      exact (hnotens _ _ hz.symm).elim
    | succ j => simp at hi
  · rw [hev] at hi ⊢
    cases i with
    | zero =>
      have hz : Event.ensureDir (args.getD 3 "") dE = e := by simpa using hi
      exact (hnotens _ _ hz.symm).elim
    | succ j =>
      refine ⟨Nat.succ_pos j, rfl, ?_, hdir⟩
      simp [List.countP_cons, Event.isEnsure]
  · rw [hev] at hi ⊢
    cases i with
    | zero =>
      have hz : Event.ensureDir (args.getD 3 "") dE = e := by simpa using hi
      exact (hnotens _ _ hz.symm).elim
    | succ j =>
      refine ⟨Nat.succ_pos j, rfl, ?_, hdir⟩
      simp [List.countP_cons, Event.isEnsure, countP_ensure_map]

/-- C3 witness: in the run `prog public tiiuae/falcon-7b /o` the resolve
event sits at position 1, the directory step at position 0, and there is
exactly one directory step. -/
theorem claim3_witness :
    0 < 1
    ∧ (mainRun ["prog", "public", "tiiuae/falcon-7b", "/o"] (fun _ => "")
        true true).events[0]? = some (.ensureDir "/o" true)
    ∧ (mainRun ["prog", "public", "tiiuae/falcon-7b", "/o"] (fun _ => "")
        true true).events.countP Event.isEnsure = 1
    ∧ (true = true ∨ true = true) :=
  claim3_dir_check_before_resolver
    ["prog", "public", "tiiuae/falcon-7b", "/o"] (fun _ => "") true true 1
    (.resolve "public" "" "tiiuae/falcon-7b") (by decide) (by decide)

/-- C4: for a private link, when `AUTH_TOKEN_ENV_VAR` is unset/empty or the
argument list (Go's `os.Args`, program name included) does not have exactly 6
entries, the run ends fatally with no resolver invocation and no download
launch. -/
theorem claim4_private_precondition (args : List String)
    (getenv : String → String) (dE mkOk : Bool)
    (h1 : args.getD 1 "" = PrivateLink)
    (h2 : getenv "AUTH_TOKEN_ENV_VAR" = "" ∨ args.length ≠ 6) :
    (∃ m, (mainRun args getenv dE mkOk).result = .fatal m)
    ∧ (mainRun args getenv dE mkOk).events.countP Event.isResolve = 0
    ∧ (mainRun args getenv dE mkOk).events.countP Event.isDownload = 0 := by
  unfold mainRun
  split_ifs with hA hB hC hD
  · exact ⟨⟨_, rfl⟩, by simp, by simp⟩
  · exact ⟨⟨_, rfl⟩, by simp [List.countP_cons, Event.isResolve],
      by simp [List.countP_cons, Event.isDownload]⟩
  · exact ⟨⟨_, rfl⟩, by simp [List.countP_cons, Event.isResolve],
      by simp [List.countP_cons, Event.isDownload]⟩
  · exact ⟨⟨_, rfl⟩, by simp [List.countP_cons, Event.isResolve],
      by simp [List.countP_cons, Event.isDownload]⟩
  · exfalso
    rcases h2 with h2 | h2
    · exact hD ⟨h1, h2⟩
    · exact hC ⟨h1, h2⟩

/-- C4 witness: `prog private llama-2-7b /o` (4 arguments, no token) dies
before resolving or downloading anything. -/
theorem claim4_witness :
    (∃ m, (mainRun ["prog", "private", "llama-2-7b", "/o"] (fun _ => "")
        true true).result = .fatal m)
    ∧ (mainRun ["prog", "private", "llama-2-7b", "/o"] (fun _ => "")
        true true).events.countP Event.isResolve = 0
    ∧ (mainRun ["prog", "private", "llama-2-7b", "/o"] (fun _ => "")
        true true).events.countP Event.isDownload = 0 :=
  claim4_private_precondition ["prog", "private", "llama-2-7b", "/o"]
    (fun _ => "") true true (by decide) (Or.inl rfl)

/-- C5: for a model version outside the accepted set of its link type, the
resolver returns the "Invalid model version" error naming that model version,
and every run with those arguments ends fatally with no download launched. -/
theorem claim5_invalid_model (linkType baseURL modelVersion : String)
    (args : List String) (getenv : String → String) (dE mkOk : Bool)
    (hmv : if linkType = PublicLink then modelVersion ∉ publicModels
           else modelVersion ∉ privateModels)
    (ha1 : args.getD 1 "" = linkType) (ha2 : args.getD 2 "" = modelVersion) :
    getURLsForModel linkType baseURL modelVersion =
      .error ((if linkType = PublicLink then "Invalid model version for public link: "
               else "Invalid model version for private link: ") ++ modelVersion)
    ∧ (∃ m, (mainRun args getenv dE mkOk).result = .fatal m)
    ∧ ∀ e ∈ (mainRun args getenv dE mkOk).events, e.isDownload = false := by
  have hdone : ∀ urls,
      getURLsForModel (args.getD 1 "") (mainBaseURL args) (args.getD 2 "")
        = .ok urls → False := by
    intro urls hok
    rw [ha1, ha2, getURLsForModel_invalid linkType (mainBaseURL args) modelVersion hmv]
      at hok
    exact Except.noConfusion hok
  refine ⟨getURLsForModel_invalid linkType baseURL modelVersion hmv, ?_, ?_⟩
  · rcases mainRun_cases args getenv dE mkOk with
      ⟨-, hres⟩ | ⟨-, hres⟩ | ⟨m, -, -, hres⟩ | ⟨urls, hok, -, -⟩
    · exact hres
    · exact hres
    · exact ⟨m, hres⟩
    · exact absurd hok (hdone urls)
  · rcases mainRun_cases args getenv dE mkOk with
      ⟨hev, -⟩ | ⟨hev, -⟩ | ⟨m, -, hev, -⟩ | ⟨urls, hok, -, -⟩
    · rw [hev]
      intro e he
      exact absurd he (List.not_mem_nil e)
    · rw [hev]
      intro e he
      rcases List.mem_cons.mp he with rfl | he2
      · rfl
      · exact absurd he2 (List.not_mem_nil e)
    · rw [hev]
      intro e he
      rcases List.mem_cons.mp he with rfl | he2
      · rfl
      · rcases List.mem_cons.mp he2 with rfl | he3
        · rfl
        · exact absurd he3 (List.not_mem_nil e)
    · exact absurd hok (hdone urls)

/-- C5 witness: the unknown model version `bogus` under the public link type
is rejected by the resolver and the run launches no download. -/
theorem claim5_witness :
    getURLsForModel "public" "" "bogus" =
      .error ((if "public" = PublicLink then "Invalid model version for public link: "
               else "Invalid model version for private link: ") ++ "bogus")
    ∧ (∃ m, (mainRun ["prog", "public", "bogus", "/o"] (fun _ => "")
        true true).result = .fatal m)
    ∧ ∀ e ∈ (mainRun ["prog", "public", "bogus", "/o"] (fun _ => "")
        true true).events, e.isDownload = false :=
  claim5_invalid_model "public" "" "bogus"
    ["prog", "public", "bogus", "/o"] (fun _ => "") true true
    (by decide) rfl rfl

theorem nodup_append_left (p : String) (l : List String) (hl : l.Nodup) :
    (l.map (fun s => p ++ s)).Nodup :=
  hl.map (fun {x y} (hxy : p ++ x = p ++ y) => str_append_left_cancel hxy)

/-- Every URL list the resolver accepts has pairwise-distinct entries. -/
theorem getURLsForModel_nodup (lt b mv : String) (urls : List String)
    (h : getURLsForModel lt b mv = .ok urls) : urls.Nodup := by
  unfold getURLsForModel getPrivateURLsForModel at h
  split_ifs at h with h1 h2 h3 h4 h5 h6
  · rcases h2 with rfl | rfl <;>
    · injection h with h2
      subst h2
      decide
  · rcases h3 with rfl | rfl <;>
    · injection h with h2
      subst h2
      decide
  · rcases h4 with rfl | rfl <;>
    · injection h with h2
      subst h2
      exact nodup_append_left _ ["/consolidated.00.pth", "/params.json"] (by decide)
  · rcases h5 with rfl | rfl <;>
    · injection h with h2
      subst h2
      exact nodup_append_left _
        ["/consolidated.00.pth", "/consolidated.01.pth", "/params.json"] (by decide)
  · rcases h6 with rfl | rfl <;>
    · injection h with h2
      subst h2
      exact nodup_append_left _
        [ "/consolidated.00.pth", "/consolidated.01.pth", "/consolidated.03.pth"
        , "/consolidated.04.pth", "/consolidated.05.pth", "/consolidated.06.pth"
        , "/consolidated.07.pth", "/params.json" ] (by decide)

/-- C8: a run that exits normally launched exactly one download task per
resolved URL, in list order, with no URL repeated (the resolved list is
duplicate-free), and the single `wg.Wait()` barrier means the run completes
only after the whole task list is launched and joined. -/
theorem claim8_one_task_per_url (args : List String) (getenv : String → String)
    (dE mkOk : Bool)
    (h : (mainRun args getenv dE mkOk).result = .done) :
    ∃ urls,
      getURLsForModel (args.getD 1 "") (mainBaseURL args) (args.getD 2 "") = .ok urls
      ∧ (mainRun args getenv dE mkOk).events.filter Event.isDownload
          = urls.map (fun u => .download (args.getD 3 "") u (mainToken args getenv))
      ∧ urls.Nodup
      ∧ (mainRun args getenv dE mkOk).events.countP Event.isDownload = urls.length := by
  rcases mainRun_cases args getenv dE mkOk with
    ⟨-, m, hres⟩ | ⟨-, m, hres⟩ | ⟨m, -, -, hres⟩ | ⟨urls, hok, hev, -⟩
  · rw [h] at hres; exact RunOutcome.noConfusion hres
  · rw [h] at hres; exact RunOutcome.noConfusion hres
  · rw [h] at hres; exact RunOutcome.noConfusion hres
  · refine ⟨urls, hok, ?_, getURLsForModel_nodup _ _ _ _ hok, ?_⟩
    · rw [hev]
      simp [List.filter_cons, Event.isDownload, filter_download_map]
    · rw [hev]
      simp [List.countP_cons, Event.isDownload, countP_download_map]

/-- C8 witness: the completed run `prog public tiiuae/falcon-7b /o` fans out
one task per resolved URL. -/
theorem claim8_witness :
    ∃ urls,
      getURLsForModel
          ((["prog", "public", "tiiuae/falcon-7b", "/o"] : List String).getD 1 "")
          (mainBaseURL ["prog", "public", "tiiuae/falcon-7b", "/o"])
          ((["prog", "public", "tiiuae/falcon-7b", "/o"] : List String).getD 2 "")
        = .ok urls
      ∧ (mainRun ["prog", "public", "tiiuae/falcon-7b", "/o"] (fun _ => "")
            true true).events.filter Event.isDownload
          = urls.map (fun u => .download
              ((["prog", "public", "tiiuae/falcon-7b", "/o"] : List String).getD 3 "") u
              (mainToken ["prog", "public", "tiiuae/falcon-7b", "/o"] (fun _ => "")))
      ∧ urls.Nodup
      ∧ (mainRun ["prog", "public", "tiiuae/falcon-7b", "/o"] (fun _ => "")
            true true).events.countP Event.isDownload = urls.length :=
  claim8_one_task_per_url ["prog", "public", "tiiuae/falcon-7b", "/o"]
    (fun _ => "") true true (by decide)

/-- C6: every request `downloadFile` builds uses the HTTP GET method, carries
the header `("Authorization", "Bearer " + token)` exactly when the token is
non-empty (and no header at all otherwise), and in a run with link type
`"public"` every launched download task carries the empty token. -/
theorem claim6_get_and_bearer (folderPath url token : String)
    (args : List String) (getenv : String → String) (dE mkOk : Bool) (e : Event)
    (hpub : args.getD 1 "" = PublicLink)
    (he : e ∈ (mainRun args getenv dE mkOk).events) :
    (downloadFile folderPath url token).request.method = "GET"
    ∧ ((("Authorization", "Bearer " ++ token)
          ∈ (downloadFile folderPath url token).request.headers) ↔ token ≠ "")
    ∧ (token = "" → (downloadFile folderPath url token).request.headers = [])
    ∧ (∀ d u t, e = .download d u t → t = "") := by
  have htok : mainToken args getenv = "" := by
    unfold mainToken
    rw [hpub, if_neg (by decide)]
  refine ⟨rfl, ?_, ?_, ?_⟩
  · by_cases ht : token = "" <;> simp [downloadFile, ht]
  · intro ht
    simp [downloadFile, ht]
  · intro d u t heq
    subst heq
    rcases mainRun_cases args getenv dE mkOk with
      ⟨hev, -⟩ | ⟨hev, -⟩ | ⟨m, -, hev, -⟩ | ⟨urls, -, hev, -⟩
    · rw [hev] at he
      exact absurd he (List.not_mem_nil _)
    · rw [hev] at he
      rcases List.mem_cons.mp he with heq2 | he2
      · exact Event.noConfusion heq2
      · exact absurd he2 (List.not_mem_nil _)
    · rw [hev] at he
      rcases List.mem_cons.mp he with heq2 | he2
      · exact Event.noConfusion heq2
      · rcases List.mem_cons.mp he2 with heq3 | he3
        · exact Event.noConfusion heq3
        · exact absurd he3 (List.not_mem_nil _)
    · rw [hev] at he
      rcases List.mem_cons.mp he with heq2 | he2
      · exact Event.noConfusion heq2
      · rcases List.mem_cons.mp he2 with heq3 | he3
        · exact Event.noConfusion heq3
        · obtain ⟨u2, -, heq4⟩ := List.mem_map.mp he3
          injection heq4 with hd hu ht
          rw [← ht, htok]

/-- C6 witness: a concrete request with a non-empty token, and a download
event of the public run `prog public tiiuae/falcon-7b /o`, whose token is
empty. -/
theorem claim6_witness :
    (downloadFile "/o" "https://x/a.bin" "tok").request.method = "GET"
    ∧ ((("Authorization", "Bearer " ++ "tok")
          ∈ (downloadFile "/o" "https://x/a.bin" "tok").request.headers) ↔ "tok" ≠ "")
    ∧ ("tok" = "" → (downloadFile "/o" "https://x/a.bin" "tok").request.headers = [])
    ∧ (∀ d u t,
        Event.download "/o"
            "https://huggingface.co/tiiuae/falcon-7b/raw/main/config.json" ""
          = .download d u t → t = "") :=
  claim6_get_and_bearer "/o" "https://x/a.bin" "tok"
    ["prog", "public", "tiiuae/falcon-7b", "/o"] (fun _ => "") true true
    (.download "/o" "https://huggingface.co/tiiuae/falcon-7b/raw/main/config.json" "")
    (by decide) (by decide)

/-- On every URL list the resolver accepts, the Go base name
(`filepath.Base`) coincides with the spec's "final path component". -/
theorem resolve_base_eq_spec (lt b mv : String) (urls : List String)
    (h : getURLsForModel lt b mv = .ok urls) :
    ∀ u ∈ urls, filepathBase u = specFinalComponent u := by
  unfold getURLsForModel getPrivateURLsForModel at h
  split_ifs at h with h1 h2 h3 h4 h5 h6
  · rcases h2 with rfl | rfl <;>
    · injection h with h2
      subst h2
      decide
  · rcases h3 with rfl | rfl <;>
    · injection h with h2
      subst h2
      decide
  · rcases h4 with rfl | rfl <;>
    · injection h with h2
      subst h2
      intro u hu
      rcases List.mem_cons.mp hu with rfl | hu2
      · rw [fpB_c00, sFC_c00]
      · rcases List.mem_cons.mp hu2 with rfl | hu3
        · rw [fpB_params, sFC_params]
        · exact absurd hu3 (List.not_mem_nil u)
  · rcases h5 with rfl | rfl <;>
    · injection h with h2
      subst h2
      intro u hu
      rcases List.mem_cons.mp hu with rfl | hu2
      · rw [fpB_c00, sFC_c00]
      · rcases List.mem_cons.mp hu2 with rfl | hu3
        · rw [fpB_c01, sFC_c01]
        · rcases List.mem_cons.mp hu3 with rfl | hu4
          · rw [fpB_params, sFC_params]
          · exact absurd hu4 (List.not_mem_nil u)
  · rcases h6 with rfl | rfl <;>
    · injection h with h2
      subst h2
      intro u hu
      rcases List.mem_cons.mp hu with rfl | hu2
      · rw [fpB_c00, sFC_c00]
      · rcases List.mem_cons.mp hu2 with rfl | hu3
        · rw [fpB_c01, sFC_c01]
        · rcases List.mem_cons.mp hu3 with rfl | hu4
          · rw [fpB_c03, sFC_c03]
          · rcases List.mem_cons.mp hu4 with rfl | hu5
            · rw [fpB_c04, sFC_c04]
            · rcases List.mem_cons.mp hu5 with rfl | hu6
              · rw [fpB_c05, sFC_c05]
              · rcases List.mem_cons.mp hu6 with rfl | hu7
                · rw [fpB_c06, sFC_c06]
                · rcases List.mem_cons.mp hu7 with rfl | hu8
                  · rw [fpB_c07, sFC_c07]
                  · rcases List.mem_cons.mp hu8 with rfl | hu9
                    · rw [fpB_params, sFC_params]
                    · exact absurd hu9 (List.not_mem_nil u)

/-- C7: for every URL in a resolved list, `downloadFile` writes the response
body only to the path obtained by joining the output directory with the base
name — the final path component — of the URL, and creates exactly that
file. -/
theorem claim7_dest_path
    (outputDirectory linkType baseURL modelVersion token url : String)
    (urls : List String)
    (hres : getURLsForModel linkType baseURL modelVersion = .ok urls)
    (hurl : url ∈ urls) :
    (downloadFile outputDirectory url token).writtenPaths
        = [filepathJoin outputDirectory (specFinalComponent url)]
    ∧ (downloadFile outputDirectory url token).createPath
        = filepathJoin outputDirectory (specFinalComponent url) := by
  have hb : filepathBase url = specFinalComponent url :=
    resolve_base_eq_spec _ _ _ _ hres url hurl
  constructor
  · show [filepathJoin outputDirectory (getFilenameFromURL url)] = _
    rw [show getFilenameFromURL url = filepathBase url from rfl, hb]
  · show filepathJoin outputDirectory (getFilenameFromURL url) = _
    rw [show getFilenameFromURL url = filepathBase url from rfl, hb]

/-- C7 witness: the `config.json` URL of the resolved `tiiuae/falcon-7b` list
is written exactly to the join of the output directory and its final path
component. -/
theorem claim7_witness :
    (downloadFile "/o"
        "https://huggingface.co/tiiuae/falcon-7b/raw/main/config.json"
        "tok").writtenPaths
      = [filepathJoin "/o" (specFinalComponent
          "https://huggingface.co/tiiuae/falcon-7b/raw/main/config.json")]
    ∧ (downloadFile "/o"
        "https://huggingface.co/tiiuae/falcon-7b/raw/main/config.json"
        "tok").createPath
      = filepathJoin "/o" (specFinalComponent
          "https://huggingface.co/tiiuae/falcon-7b/raw/main/config.json") :=
  claim7_dest_path "/o" "public" "" "tiiuae/falcon-7b" "tok"
    "https://huggingface.co/tiiuae/falcon-7b/raw/main/config.json"
    (falconModelURLs "tiiuae/falcon-7b" 2 ++ falconCommonURLs "tiiuae/falcon-7b")
    rfl (by decide)

/-- Go's truncated `int64` division by 100 is nonpositive for every total
strictly below 100 (in particular for `-1` and `0`). -/
theorem tdiv_100_nonpos (t : Int) (h : t < 100) : Int.tdiv t 100 ≤ 0 := by
  cases t with
  | ofNat m =>
    have hm : m < 100 := by
      have h2 : (m : Int) < 100 := h
      exact_mod_cast h2
    have hdiv : Int.tdiv (Int.ofNat m) 100 = Int.ofNat (m / 100) := rfl
    rw [hdiv, Nat.div_eq_of_lt hm]
    exact le_refl 0
  | negSucc m =>
    have hdiv : Int.tdiv (Int.negSucc m) 100 = -Int.ofNat (m.succ / 100) := rfl
    rw [hdiv]
    have h0 : (0 : Int) ≤ Int.ofNat (Nat.succ m / 100) := Int.natCast_nonneg _
    exact neg_nonpos.mpr h0

/-- C9 counterexample: at `total = 100` (which is "at most 100") the claimed
bound `total/100 ≤ 0` fails — `100/100 = 1` — and the call with the empty
byte slice on a fresh counter prints no progress line. -/
theorem claim9_counterexample :
    (100 : Int) ≤ 100
    ∧ ¬ Int.tdiv (100 : Int) 100 ≤ 0
    ∧ ((⟨"f", 100, 0, 0⟩ : WriteCounter).write []).printed = false := by
  refine ⟨by decide, by decide, rfl⟩

/-- C9 (amended): `WriteCounter.Write` always returns `(len p, nil)`; it
prints exactly when the cumulative bytes read minus the last reported value
reaches `total/100` (truncated division); for every total strictly less than
100 (including `-1` and `0`) that threshold is nonpositive and — on any
reachable counter state, where the last reported value never exceeds the
cumulative count — a line is printed on every call; the reachability
invariant is preserved by every call. -/
theorem claim9_write_progress (wc : WriteCounter) (p : List Nat) :
    (wc.write p).n = p.length
    ∧ (wc.write p).err = none
    ∧ ((wc.write p).printed = true ↔
        wc.read + (p.length : Int) - wc.lastReported ≥ Int.tdiv wc.total 100)
    ∧ (wc.total < 100 → Int.tdiv wc.total 100 ≤ 0)
    ∧ (wc.total < 100 → wc.lastReported ≤ wc.read → (wc.write p).printed = true)
    ∧ (wc.write p).counter.read = wc.read + (p.length : Int)
    ∧ (wc.lastReported ≤ wc.read →
        (wc.write p).counter.lastReported ≤ (wc.write p).counter.read) := by
  unfold WriteCounter.write
  by_cases hcond : wc.read + (p.length : Int) - wc.lastReported ≥ Int.tdiv wc.total 100
  · rw [if_pos hcond]
    refine ⟨rfl, rfl, by simpa using hcond, fun h => tdiv_100_nonpos wc.total h,
      fun _ _ => rfl, rfl, fun _ => le_refl _⟩
  · rw [if_neg hcond]
    refine ⟨rfl, rfl, by simpa using hcond, fun h => tdiv_100_nonpos wc.total h,
      ?_, rfl, ?_⟩
    · intro h hle
      have := tdiv_100_nonpos wc.total h
      exfalso
      apply hcond
      have hlen : (0 : Int) ≤ (p.length : Int) := by positivity
      omega
    · intro hle
      show wc.lastReported ≤ wc.read + (p.length : Int)
      have hlen : (0 : Int) ≤ (p.length : Int) := by positivity
      omega

/-- C9 witness: on a fresh counter with total 50 the progress line is printed. -/
theorem claim9_witness :
    ((⟨"f", 50, 0, 0⟩ : WriteCounter).write [0, 1]).printed = true :=
  (claim9_write_progress ⟨"f", 50, 0, 0⟩ [0, 1]).2.2.2.2.1 (by decide) (by decide)

theorem nodup_map_of_injOn {α β : Type} {f : α → β} :
    ∀ l : List α, (∀ x ∈ l, ∀ y ∈ l, f x = f y → x = y) →
      l.Nodup → (l.map f).Nodup := by
  intro l
  induction l with
  | nil => intro _ _; simp
  | cons a t ih =>
    intro hinj hnd
    rw [List.nodup_cons] at hnd
    rw [List.map_cons, List.nodup_cons]
    refine ⟨?_, ih (fun x hx y hy =>
      hinj x (List.mem_cons_of_mem a hx) y (List.mem_cons_of_mem a hy)) hnd.2⟩
    intro hmem
    obtain ⟨x, hx, hfx⟩ := List.mem_map.mp hmem
    have hxa : x = a := hinj x (List.mem_cons_of_mem a hx) a
      (List.mem_cons_self a t) hfx
    subst hxa
    exact hnd.1 hx

/-- On every URL list the resolver accepts, mapping `filepath.Base` yields a
duplicate-free list of plain file names. -/
theorem resolve_basenames (lt b mv : String) (urls : List String)
    (h : getURLsForModel lt b mv = .ok urls) :
    ∃ names : List String, urls.map filepathBase = names
      ∧ names.Nodup ∧ ∀ n ∈ names, isPlainName n := by
  unfold getURLsForModel getPrivateURLsForModel at h
  split_ifs at h with h1 h2 h3 h4 h5 h6
  · rcases h2 with rfl | rfl <;>
    · injection h with h2
      subst h2
      exact ⟨_, rfl, by decide, by decide⟩
  · rcases h3 with rfl | rfl <;>
    · injection h with h2
      subst h2
      exact ⟨_, rfl, by decide, by decide⟩
  · rcases h4 with rfl | rfl <;>
    · injection h with h2
      subst h2
      refine ⟨["consolidated.00.pth", "params.json"], ?_, by decide, by decide⟩
      simp only [List.map_cons, List.map_nil, fpB_c00, fpB_params]
  · rcases h5 with rfl | rfl <;>
    · injection h with h2
      subst h2
      refine ⟨["consolidated.00.pth", "consolidated.01.pth", "params.json"],
        ?_, by decide, by decide⟩
      simp only [List.map_cons, List.map_nil, fpB_c00, fpB_c01, fpB_params]
  · rcases h6 with rfl | rfl <;>
    · injection h with h2
      subst h2
      refine ⟨[ "consolidated.00.pth", "consolidated.01.pth", "consolidated.03.pth"
              , "consolidated.04.pth", "consolidated.05.pth", "consolidated.06.pth"
              , "consolidated.07.pth", "params.json" ], ?_, by decide, by decide⟩
      simp only [List.map_cons, List.map_nil, fpB_c00, fpB_c01, fpB_c03,
        fpB_c04, fpB_c05, fpB_c06, fpB_c07, fpB_params]

/-- C10: for every accepted model version, under either link type and any
base URL, the base names of the resolved URLs are pairwise distinct, and so
are the local destination paths the download tasks of one run write to. -/
theorem claim10_distinct_paths
    (linkType baseURL modelVersion outputDirectory token : String)
    (urls : List String)
    (hres : getURLsForModel linkType baseURL modelVersion = .ok urls) :
    (urls.map getFilenameFromURL).Nodup
    ∧ (urls.map (fun u => (downloadFile outputDirectory u token).createPath)).Nodup := by
  obtain ⟨names, hmap, hnd, hgood⟩ := resolve_basenames _ _ _ _ hres
  constructor
  · show (urls.map filepathBase).Nodup
    rw [hmap]
    exact hnd
  · show (urls.map (fun u => filepathJoin outputDirectory (filepathBase u))).Nodup
    have hcomp : urls.map (fun u => filepathJoin outputDirectory (filepathBase u))
        = (urls.map filepathBase).map (fun n => filepathJoin outputDirectory n) := by
      rw [List.map_map]
      rfl
    rw [hcomp, hmap]
    refine nodup_map_of_injOn names ?_ hnd
    intro x hx y hy hf
    rw [← filepathBase_filepathJoin outputDirectory x (hgood x hx),
      ← filepathBase_filepathJoin outputDirectory y (hgood y hy), hf]

/-- C10 witness: the resolved `llama-2-70b` list for a concrete private base
URL has pairwise distinct base names and destination paths. -/
theorem claim10_witness :
    (( [ "http://h:80/download/" ++ "llama-2-70b" ++ "/consolidated.00.pth"
        , "http://h:80/download/" ++ "llama-2-70b" ++ "/consolidated.01.pth"
        , "http://h:80/download/" ++ "llama-2-70b" ++ "/consolidated.03.pth"
        , "http://h:80/download/" ++ "llama-2-70b" ++ "/consolidated.04.pth"
        , "http://h:80/download/" ++ "llama-2-70b" ++ "/consolidated.05.pth"
        , "http://h:80/download/" ++ "llama-2-70b" ++ "/consolidated.06.pth"
        , "http://h:80/download/" ++ "llama-2-70b" ++ "/consolidated.07.pth"
        , "http://h:80/download/" ++ "llama-2-70b" ++ "/params.json" ]
      : List String).map getFilenameFromURL).Nodup
    ∧ (( [ "http://h:80/download/" ++ "llama-2-70b" ++ "/consolidated.00.pth"
          , "http://h:80/download/" ++ "llama-2-70b" ++ "/consolidated.01.pth"
          , "http://h:80/download/" ++ "llama-2-70b" ++ "/consolidated.03.pth"
          , "http://h:80/download/" ++ "llama-2-70b" ++ "/consolidated.04.pth"
          , "http://h:80/download/" ++ "llama-2-70b" ++ "/consolidated.05.pth"
          , "http://h:80/download/" ++ "llama-2-70b" ++ "/consolidated.06.pth"
          , "http://h:80/download/" ++ "llama-2-70b" ++ "/consolidated.07.pth"
          , "http://h:80/download/" ++ "llama-2-70b" ++ "/params.json" ]
        : List String).map (fun u => (downloadFile "/o" u "tok").createPath)).Nodup :=
  claim10_distinct_paths "private" "http://h:80/download/" "llama-2-70b" "/o" "tok" _ rfl

end DownloadScript
